import Mathlib

/-!
Verification development for the Atlas agent core (src/core of the repository):
the response parser (`AtlasBrain._parse_tool_call`), the capability dispatcher
(`AtlasBrain._execute_tool`), the two control-loop modes of `AtlasBrain.think`,
the sandboxed code executor (`CodeExecutor`), the knowledge fact store
(`src/core/tools/knowledge.py`) and the workspace path guard
(`AtlasTools._get_safe_path`).

Python strings are modelled by `String`; Python `str.split`, `str.strip` and
substring tests are re-implemented on character lists so every definition is
executable and kernel-reducible.  JSON values (`json.loads` / `json.dumps`)
are modelled by the inductive `JsonVal`; numeric literals are modelled over
integers (float forms are not needed anywhere in this development).
-/

/-! ## Python string primitives -/

/-- Whitespace stripped by Python `str.strip()`. -/
def pyWs (c : Char) : Bool :=
  c = ' ' || c = '\t' || c = '\n' || c = '\r' || c = '\x0b' || c = '\x0c'

/-- Drop leading Python whitespace from a character list. -/
def dropLeadingWs : List Char → List Char
  | [] => []
  | c :: cs => if pyWs c then dropLeadingWs cs else c :: cs

/-- Python `s.strip()`. -/
def pyStrip (s : String) : String :=
  String.mk ((dropLeadingWs (dropLeadingWs s.data).reverse).reverse)

/-- If `sep` is a leading segment of `l`, return the remainder of `l`. -/
def matchesAt : List Char → List Char → Option (List Char)
  | [], l => some l
  | _, [] => none
  | s :: ss, c :: cs => if s = c then matchesAt ss cs else none

/-- Fueled worker for `pySplit`; `cur` holds the current segment reversed.
    With fuel `≥ l.length + 1` and a non-empty separator the fuel never
    runs out, so the fallback first branch is unreachable in practice. -/
def splitOnFuel (sep : List Char) : Nat → List Char → List Char → List (List Char)
  | 0, l, cur => [cur.reverse ++ l]
  | _ + 1, [], cur => [cur.reverse]
  | f + 1, c :: cs, cur =>
    match matchesAt sep (c :: cs) with
    | some rest => cur.reverse :: splitOnFuel sep f rest []
    | none => splitOnFuel sep f cs (c :: cur)

/-- Python `s.split(sep)` for a non-empty separator. -/
def pySplit (s sep : String) : List String :=
  (splitOnFuel sep.data (s.data.length + 1) s.data []).map String.mk

/-- Python `sub in s` (substring containment), for a non-empty `sub`. -/
def strContains (s sub : String) : Bool :=
  2 ≤ (pySplit s sub).length

/-- Boolean list-prefix test (used to model Python `str.startswith`). -/
def listStartsWith [DecidableEq α] : List α → List α → Bool
  | _, [] => true
  | [], _ :: _ => false
  | a :: as, b :: bs => b = a && listStartsWith as bs

/-- Python `s.startswith(pre)`. -/
def pyStartsWith (s pre : String) : Bool :=
  listStartsWith s.data pre.data

/-! ## JSON values (`json.loads` / `json.dumps`) -/

/-- A Python JSON value as produced by `json.loads`.  Objects keep their
    member order (Python dicts are insertion ordered). -/
inductive JsonVal where
  | null
  | bool (b : Bool)
  | num (n : Int)
  | str (s : String)
  | arr (xs : List JsonVal)
  | obj (fields : List (String × JsonVal))

/-- Python `d.get(k)` on a dict: the value of the first matching key.
    Dicts coming from Python never hold duplicate keys, so first match
    agrees with dict lookup. -/
def dictGet : List (String × JsonVal) → String → Option JsonVal
  | [], _ => none
  | (k, v) :: rest, key => if k = key then some v else dictGet rest key

/-- Python truthiness of a JSON value (`if not tool_calls:` etc.). -/
def pyTruthy : JsonVal → Bool
  | .null => false
  | .bool b => b
  | .num n => n ≠ 0
  | .str s => s ≠ ""
  | .arr xs => !xs.isEmpty
  | .obj fs => !fs.isEmpty

/-- JSON whitespace skipped by `json.loads`. -/
def jsonWs (c : Char) : Bool := c = ' ' || c = '\t' || c = '\n' || c = '\r'

/-- Skip JSON whitespace. -/
def skipJsonWs : List Char → List Char
  | [] => []
  | c :: cs => if jsonWs c then skipJsonWs cs else c :: cs

/-- Body of a JSON string literal after the opening quote; handles the
    one-character escapes (`\u` escapes are not needed by this development
    and make the parse fail). Control characters are rejected as in Python. -/
def parseStrBody : List Char → List Char → Option (String × List Char)
  | acc, '"' :: rest => some (String.mk acc.reverse, rest)
  | acc, '\\' :: e :: rest =>
    (match e with
     | '"' => parseStrBody ('"' :: acc) rest
     | '\\' => parseStrBody ('\\' :: acc) rest
     | '/' => parseStrBody ('/' :: acc) rest
     | 'n' => parseStrBody ('\n' :: acc) rest
     | 't' => parseStrBody ('\t' :: acc) rest
     | 'r' => parseStrBody ('\r' :: acc) rest
     | 'b' => parseStrBody ('\x08' :: acc) rest
     | 'f' => parseStrBody ('\x0c' :: acc) rest
     | _ => none)
  | _, '\\' :: [] => none
  | acc, c :: rest => if c.toNat < 32 then none else parseStrBody (c :: acc) rest
  | _, [] => none

/-- Accumulate decimal digits. -/
def takeDigitsAcc : Nat → List Char → Nat × List Char
  | acc, c :: cs =>
    if c.isDigit then takeDigitsAcc (acc * 10 + (c.toNat - '0'.toNat)) cs
    else (acc, c :: cs)
  | acc, [] => (acc, [])

/-- Parse an integer JSON number (sign and digits; float forms fail). -/
def parseIntLit : List Char → Option (Int × List Char)
  | '-' :: c :: cs =>
    if c.isDigit then
      let (n, rest) := takeDigitsAcc (c.toNat - '0'.toNat) cs
      match rest with
      | '.' :: _ => none
      | 'e' :: _ => none
      | 'E' :: _ => none
      | _ => some (-(n : Int), rest)
    else none
  | c :: cs =>
    if c.isDigit then
      let (n, rest) := takeDigitsAcc (c.toNat - '0'.toNat) cs
      match rest with
      | '.' :: _ => none
      | 'e' :: _ => none
      | 'E' :: _ => none
      | _ => some ((n : Int), rest)
    else none
  | [] => none

mutual

/-- Fueled recursive-descent JSON value parser. -/
def parseVal : Nat → List Char → Option (JsonVal × List Char)
  | 0, _ => none
  | f + 1, cs =>
    match skipJsonWs cs with
    | 'n' :: 'u' :: 'l' :: 'l' :: rest => some (.null, rest)
    | 't' :: 'r' :: 'u' :: 'e' :: rest => some (.bool true, rest)
    | 'f' :: 'a' :: 'l' :: 's' :: 'e' :: rest => some (.bool false, rest)
    | '"' :: rest =>
      (match parseStrBody [] rest with
       | some (s, r) => some (.str s, r)
       | none => none)
    | '[' :: rest =>
      (match skipJsonWs rest with
       | ']' :: r => some (.arr [], r)
       | _ =>
         match parseElems f rest with
         | some (vs, r) => some (.arr vs, r)
         | none => none)
    | '\x7b' :: rest =>
      (match skipJsonWs rest with
       | '\x7d' :: r => some (.obj [], r)
       | _ =>
         match parseFields f rest with
         | some (fs, r) => some (.obj fs, r)
         | none => none)
    | other =>
      (match parseIntLit other with
       | some (n, r) => some (.num n, r)
       | none => none)

/-- Comma-separated array elements up to the closing bracket. -/
def parseElems : Nat → List Char → Option (List JsonVal × List Char)
  | 0, _ => none
  | f + 1, cs =>
    match parseVal f cs with
    | none => none
    | some (v, r) =>
      match skipJsonWs r with
      | ',' :: r2 =>
        (match parseElems f r2 with
         | some (vs, r3) => some (v :: vs, r3)
         | none => none)
      | ']' :: r2 => some ([v], r2)
      | _ => none

/-- Comma-separated object members up to the closing brace. -/
def parseFields : Nat → List Char → Option (List (String × JsonVal) × List Char)
  | 0, _ => none
  | f + 1, cs =>
    match skipJsonWs cs with
    | '"' :: rest =>
      (match parseStrBody [] rest with
       | none => none
       | some (k, r) =>
         match skipJsonWs r with
         | ':' :: r2 =>
           (match parseVal f r2 with
            | none => none
            | some (v, r3) =>
              match skipJsonWs r3 with
              | ',' :: r4 =>
                (match parseFields f r4 with
                 | some (fs, r5) => some ((k, v) :: fs, r5)
                 | none => none)
              | '\x7d' :: r4 => some ([(k, v)], r4)
              | _ => none)
         | _ => none)
    | _ => none

end

/-- Python `json.loads`: parses one JSON value and requires only whitespace
    after it; any other input makes it raise, modelled as `none`. -/
def json_loads (s : String) : Option JsonVal :=
  match parseVal (2 * s.data.length + 4) s.data with
  | some (v, rest) => if (skipJsonWs rest).isEmpty then some v else none
  | none => none

/-! ## `json.dumps(..., ensure_ascii=False)` -/

/-- Escape one character as Python `json.dumps` does with `ensure_ascii=False`
    (the control characters needing `\u` escapes do not occur here). -/
def jsonEscapeChar (c : Char) : String :=
  if c = '"' then "\\\""
  else if c = '\\' then "\\\\"
  else if c = '\n' then "\\n"
  else if c = '\t' then "\\t"
  else if c = '\r' then "\\r"
  else String.mk [c]

/-- Serialize a string with surrounding quotes as `json.dumps` does. -/
def dumpJsonStr (s : String) : String :=
  "\"" ++ String.join (s.data.map jsonEscapeChar) ++ "\""

mutual

/-- Python `json.dumps(v, ensure_ascii=False)` with the default separators
    `", "` and `": "` (as used for the context lines in `AtlasBrain.think`). -/
def dumps : JsonVal → String
  | .null => "null"
  | .bool true => "true"
  | .bool false => "false"
  | .num n => toString n
  | .str s => dumpJsonStr s
  | .arr xs => "[" ++ dumpsElems xs ++ "]"
  | .obj fs => "\x7b" ++ dumpsFields fs ++ "\x7d"

/-- Comma-joined array elements. -/
def dumpsElems : List JsonVal → String
  | [] => ""
  | [x] => dumps x
  | x :: y :: rest => dumps x ++ ", " ++ dumpsElems (y :: rest)

/-- Comma-joined object members. -/
def dumpsFields : List (String × JsonVal) → String
  | [] => ""
  | [(k, v)] => dumpJsonStr k ++ ": " ++ dumps v
  | (k, v) :: m :: rest => dumpJsonStr k ++ ": " ++ dumps v ++ ", " ++ dumpsFields (m :: rest)

end

mutual

/-- Python `repr` of a JSON-shaped value, best effort (strings are wrapped in
    single quotes without re-escaping; good enough for the scalar values this
    development formats). -/
def pyRepr : JsonVal → String
  | .null => "None"
  | .bool true => "True"
  | .bool false => "False"
  | .num n => toString n
  | .str s => "\x27" ++ s ++ "\x27"
  | .arr xs => "[" ++ pyReprElems xs ++ "]"
  | .obj fs => "\x7b" ++ pyReprFields fs ++ "\x7d"

/-- Comma-joined `repr`s of list elements. -/
def pyReprElems : List JsonVal → String
  | [] => ""
  | [x] => pyRepr x
  | x :: y :: rest => pyRepr x ++ ", " ++ pyReprElems (y :: rest)

/-- Comma-joined `repr`s of dict members. -/
def pyReprFields : List (String × JsonVal) → String
  | [] => ""
  | [(k, v)] => "\x27" ++ k ++ "\x27: " ++ pyRepr v
  | (k, v) :: m :: rest => "\x27" ++ k ++ "\x27: " ++ pyRepr v ++ ", " ++ pyReprFields (m :: rest)

end

/-- Python `f"{v}"` (`str(v)`) of a JSON-shaped value: a string formats as
    itself, everything else as its `repr`. -/
def pyFormat : JsonVal → String
  | .str s => s
  | v => pyRepr v

/-! ## Sandboxed code executor (`src/core/tools/code_executor.py`) -/

/-- One node of the Python `ast.walk` sequence, keeping exactly the data
    `CodeExecutor._check_code_safety` inspects: `ast.Name` identifiers,
    `ast.Import` alias names, and the `module` of an `ast.ImportFrom`
    (`none` for a relative `from . import ...`).  Every other node kind is
    `other`. -/
inductive PyAstNode where
  | nameRef (id : String)
  | importStmt (names : List String)
  | importFrom (module : Option String)
  | other

/-- The outcome of `ast.parse`: a syntax error (message rendered by
    `f"{e}"`), or the node sequence of `ast.walk` over the tree. -/
inductive ParsedCode where
  | syntaxError (msg : String)
  | tree (nodes : List PyAstNode)

/-- The module whitelist `CodeExecutor.allowed_modules`. -/
def allowed_modules : List String :=
  ["math", "random", "datetime", "json", "collections",
   "itertools", "functools", "re", "statistics",
   "numpy", "pandas", "matplotlib", "seaborn"]

/-- The identifier blacklist `CodeExecutor.forbidden_names`. -/
def forbidden_names : List String :=
  ["eval", "exec", "compile", "__import__",
   "open", "input", "file", "os", "sys",
   "subprocess", "socket", "urllib"]

/-- Python `name.split('.')[0]`. -/
def head_module (name : String) : String :=
  (pySplit name ".").getD 0 name

/-- First non-whitelisted alias of an `import` statement, with its message. -/
def firstBadAlias : List String → Option String
  | [] => none
  | a :: rest =>
    if decide (head_module a ∈ allowed_modules) then firstBadAlias rest
    else some ("禁止导入模块: " ++ a)

/-- The violation (if any) one walked node triggers, with the exact message
    `_check_code_safety` returns for it. -/
def violation : PyAstNode → Option String
  | .nameRef id =>
    if decide (id ∈ forbidden_names) then some ("禁止使用: " ++ id) else none
  | .importStmt names => firstBadAlias names
  | .importFrom (some m) =>
    if decide (head_module m ∈ allowed_modules) then none
    else some ("禁止导入模块: " ++ m)
  | .importFrom none => none
  | .other => none

/-- Walk the node sequence; the first violation decides the result. -/
def check_walk : List PyAstNode → Bool × String
  | [] => (true, "代码安全")
  | n :: rest =>
    match violation n with
    | some m => (false, m)
    | none => check_walk rest

/-- `CodeExecutor._check_code_safety`: a syntax error is a rejection,
    otherwise the walked tree is scanned for blacklisted names and
    non-whitelisted imports. -/
def check_code_safety : ParsedCode → Bool × String
  | .syntaxError e => (false, "语法错误: " ++ e)
  | .tree nodes => check_walk nodes

/-- The wall-clock bound of the `@timeout_decorator.timeout(10)` decorator
    on `CodeExecutor._run_code`, in seconds. -/
def timeout_seconds : Nat := 10

/-- What `exec(code, exec_globals)` does on an accepted snippet, as an
    oracle: it completes with captured stdout/stderr, raises after having
    written `partialOut`/`partialErr` (with `tb = traceback.format_exc()`,
    never empty for a real exception), or exceeds the wall-clock bound. -/
inductive RunOutcome where
  | completes (stdout stderr : String)
  | raises (partialOut partialErr tb : String)
  | timesOut

/-- `CodeExecutor._run_code`: returns the two captured buffers; on an
    exception it returns an empty stdout with the formatted traceback
    (the `except` branch discards `stdout_capture`); a timeout propagates
    `timeout_decorator.TimeoutError` (`Except.error`). -/
def run_code : RunOutcome → Except Unit (String × String)
  | .completes out err => .ok (out, err)
  | .raises _ _ tb => .ok ("", tb)
  | .timesOut => .error ()

/-- The `{success, message, output, error}` result of `CodeExecutor.execute`. -/
structure ExecResult where
  success : Bool
  message : String
  output : String
  error : String
deriving DecidableEq

/-- `CodeExecutor.execute`: static check first; a rejection returns without
    running; otherwise the run's buffers decide success, and a timeout is
    reported with its own fixed message. -/
def execute (code : ParsedCode) (outcome : RunOutcome) : ExecResult :=
  if (check_code_safety code).fst then
    match run_code outcome with
    | .error _ => ⟨false, "代码执行超时（超过10秒）", "", "执行超时"⟩
    | .ok (out, err) =>
      if err = "" then ⟨true, "代码执行成功", out, ""⟩
      else ⟨false, "代码执行出错", out, err⟩
  else
    ⟨false, "代码安全检查失败: " ++ (check_code_safety code).snd, "",
     (check_code_safety code).snd⟩

/-! ## Knowledge fact store (`src/core/tools/knowledge.py`) -/

/-- The persisted knowledge base, a Python dict threaded explicitly
    (`_load_kb` supplies it, `_save_kb` persists the returned one). -/
abbrev KnowledgeBase := List (String × String)

/-- Dict lookup `kb.get(key)` (first match; Python dict keys are unique). -/
def kb_get : KnowledgeBase → String → Option String
  | [], _ => none
  | (k, v) :: rest, key => if k = key then some v else kb_get rest key

/-- Dict update `kb[key] = value`: replace in place, else append. -/
def kb_set : KnowledgeBase → String → String → KnowledgeBase
  | [], key, value => [(key, value)]
  | (k, v) :: rest, key, value =>
    if k = key then (key, value) :: rest else (k, v) :: kb_set rest key value

/-- Dict deletion `del kb[key]` (first match). -/
def kb_del : KnowledgeBase → String → KnowledgeBase
  | [], _ => []
  | (k, v) :: rest, key => if k = key then rest else (k, v) :: kb_del rest key

/-- The knowledge base as the JSON `facts` payload of `list_facts`. -/
def kb_json (kb : KnowledgeBase) : JsonVal :=
  .obj (kb.map (fun p => (p.1, .str p.2)))

/-- `knowledge.remember(key, value)`: both must be non-empty strings; the
    `isinstance` guards are discharged by typing, and `_save_kb` file errors
    are not modelled (the claim concerns a successful set). -/
def remember (key value : String) (kb : KnowledgeBase) : JsonVal × KnowledgeBase :=
  if key = "" || value = "" then
    (.obj [("success", .bool false), ("message", .str "key 和 value 都不能为空")], kb)
  else
    (.obj [("success", .bool true),
           ("message", .str ("好的, 我记住了 \x27" ++ key ++ "\x27 是 \x27" ++ value ++ "\x27."))],
     kb_set kb key value)

/-- `knowledge.recall(key)` (`recall` is a Mathlib command keyword, hence the
    `_fact` suffix). -/
def recall_fact (key : String) (kb : KnowledgeBase) : JsonVal :=
  if key = "" then
    .obj [("success", .bool false), ("message", .str "key 必须是一个非空字符串")]
  else
    match kb_get kb key with
    | some v =>
      .obj [("success", .bool true), ("value", .str v),
            ("message", .str ("我记得 \x27" ++ key ++ "\x27 是 \x27" ++ v ++ "\x27."))]
    | none =>
      .obj [("success", .bool false), ("value", .null),
            ("message", .str ("我的知识库里没有关于 \x27" ++ key ++ "\x27 的记忆."))]

/-- `knowledge.forget(key)`. -/
def forget (key : String) (kb : KnowledgeBase) : JsonVal × KnowledgeBase :=
  if key = "" then
    (.obj [("success", .bool false), ("message", .str "key 必须是一个非空字符串")], kb)
  else if (kb_get kb key).isSome then
    (.obj [("success", .bool true),
           ("message", .str ("好的, 我已经忘记了关于 \x27" ++ key ++ "\x27 的记忆."))],
     kb_del kb key)
  else
    (.obj [("success", .bool false),
           ("message", .str ("我的知识库里本来就没有 \x27" ++ key ++ "\x27."))], kb)

/-- `knowledge.list_facts()`. -/
def list_facts (kb : KnowledgeBase) : JsonVal :=
  if kb.isEmpty then
    .obj [("success", .bool true), ("facts", .obj []),
          ("message", .str "我的知识库目前是空的.")]
  else
    .obj [("success", .bool true), ("facts", kb_json kb),
          ("message", .str ("我目前记住了 " ++ toString kb.length ++ " 个事实."))]

/-- The `success` field of a tool result dict. -/
def j_success : JsonVal → Option JsonVal
  | .obj fs => dictGet fs "success"
  | _ => none

/-- An arbitrary field of a tool result dict. -/
def j_field (v : JsonVal) (key : String) : Option JsonVal :=
  match v with
  | .obj fs => dictGet fs key
  | _ => none

/-! ## Workspace path guard (`AtlasTools._get_safe_path`) -/

/-- Lexical `Path.resolve` normalisation over path components: empty and
    `.` segments vanish, `..` pops (at the root it stays at the root, as
    POSIX resolution does).  Symbolic links are outside a pure model. -/
def normalize_parts (parts : List String) : List String :=
  parts.foldl
    (fun acc p =>
      if p = "" || p = "." then acc
      else if p = ".." then acc.dropLast
      else acc ++ [p])
    []

/-- Components of a path string. -/
def path_split (p : String) : List String := pySplit p "/"

/-- `(workspace / path).resolve()` with `ws` the resolved absolute
    components of the workspace: an absolute `path` replaces the base. -/
def join_resolve (ws : List String) (p : String) : List String :=
  if pyStartsWith p "/" then normalize_parts (path_split p)
  else normalize_parts (ws ++ path_split p)

/-- `str(...)` of an absolute POSIX path given by its components. -/
def render_path (parts : List String) : String :=
  parts.foldl (fun acc s => acc ++ "/" ++ s) ""

/-- `AtlasTools._get_safe_path`: resolve the target and require its string
    form to start with the workspace's string form, else raise
    `ValueError(f"路径越界: {path}")`. -/
def get_safe_path (ws : List String) (p : String) : Except String (List String) :=
  let target := join_resolve ws p
  if pyStartsWith (render_path target) (render_path (normalize_parts ws)) then .ok target
  else .error ("路径越界: " ++ p)

/-- The target directory is genuinely inside the workspace tree iff the
    workspace's components lead its components. -/
def is_within (target ws : List String) : Bool :=
  listStartsWith target ws

/-- Result of `AtlasTools.create_directory` together with the directory the
    call actually creates (`none` when `_get_safe_path` raised first and no
    file-system operation ran; `mkdir(parents=True, exist_ok=True)` itself
    is not modelled as failing). -/
structure FsOutcome where
  success : Bool
  message : String
  mkdir_target : Option (List String)
deriving DecidableEq

/-- `AtlasTools.create_directory`: the guard raises inside the `try`, and the
    `except` branch formats the `ValueError` into the failure message. -/
def create_directory (ws : List String) (path : String) : FsOutcome :=
  match get_safe_path ws path with
  | .ok t => ⟨true, "目录创建成功: " ++ path, some t⟩
  | .error e => ⟨false, "创建失败: " ++ e, none⟩

/-! ## Response parser (`AtlasBrain._parse_tool_call`) -/

/-- The extraction step of `_parse_tool_call`: the contents of the first
    fenced block labeled `json` when one is present
    (`response.split("```json")[1].split("```")[0].strip()`), otherwise the
    whole reply stripped (`response.strip()`). -/
def extract_json_str (response : String) : String :=
  if strContains response "```json" then
    pyStrip (((pySplit ((pySplit response "```json").getD 1 "") "```").getD 0 ""))
  else pyStrip response

/-- The normalisation of `_parse_tool_call`'s last line: a single JSON
    object becomes a one-element list, everything else passes through. -/
def normalize_calls : JsonVal → JsonVal
  | .obj fs => .arr [.obj fs]
  | v => v

/-- `AtlasBrain._parse_tool_call`: extraction, `json.loads`, normalisation;
    any exception (any `json.loads` failure — the splits cannot raise once
    the marker is present) returns `None`, modelled as `none`. -/
def parse_tool_call (response : String) : Option JsonVal :=
  match json_loads (extract_json_str response) with
  | none => none
  | some v => some (normalize_calls v)

/-- Modelled from the spec (§4.2 Response Parser): extraction precedence
    (a) a fenced block explicitly labeled as JSON, (b) any fenced block,
    (c) the raw text as-is; a single JSON object is normalised into a
    one-element list; any exception yields the "no actions" value.  This
    definition follows the spec's words and is compared against the
    source-derived `parse_tool_call`. -/
def parse_tool_call_spec (response : String) : Option JsonVal :=
  let payload :=
    if strContains response "```json" then
      pyStrip (((pySplit ((pySplit response "```json").getD 1 "") "```").getD 0 ""))
    else if strContains response "```" then
      pyStrip ((pySplit response "```").getD 1 "")
    else response
  match json_loads payload with
  | none => none
  | some v => some (normalize_calls v)

/-! ## Capability dispatcher (`AtlasBrain._execute_tool`) -/

/-- A Python exception escaping the dispatcher or the loops. -/
inductive PyError where
  | typeError
  | attributeError
deriving DecidableEq

/-- The action names of the dispatcher's `tool_map`, in source order. -/
def tool_names : List String :=
  ["create_directory", "delete_directory", "create_file", "delete_file",
   "move_directory", "move_file", "write_file", "read_file", "list_directory",
   "execute_python", "read_web_content", "list_web_resources", "web_search",
   "remember", "recall", "forget", "list_facts",
   "get_current_location", "get_weather"]

/-- Whether `action in tool_map` holds: only a string equal to one of the
    mapped names is found. -/
def isToolName : JsonVal → Bool
  | .str s => decide (s ∈ tool_names)
  | _ => false

/-- A capability invocation oracle: `tool_map[action](**params)` for a mapped
    action name and a params dict.  Per the capability contract (spec §6,
    mirrored by the source capabilities' blanket `except` clauses) a
    capability returns a result dict rather than raising. -/
abbrev ToolCap := String → List (String × JsonVal) → JsonVal

/-- The string content of a JSON value known to be a string. -/
def strOf : JsonVal → String
  | .str s => s
  | _ => ""

/-- `AtlasBrain._execute_tool`: `.get` on a non-dict raises
    `AttributeError`; a missing `action` is `None` and a missing
    `parameters` is `{}`; an unmapped action returns the fixed failure dict
    without raising; `**params` with a non-mapping raises `TypeError`. -/
def execute_tool (cap : ToolCap) (tool_call : JsonVal) : Except PyError JsonVal :=
  match tool_call with
  | .obj fields =>
    let action := (dictGet fields "action").getD .null
    let params := (dictGet fields "parameters").getD (.obj [])
    if isToolName action then
      match params with
      | .obj p => .ok (cap (strOf action) p)
      | _ => .error .typeError
    else
      .ok (.obj [("success", .bool false),
                 ("message", .str ("未知工具: " ++ pyFormat action))])
  | _ => .error .attributeError

/-! ## Control loop (`AtlasBrain.think` and `AtlasBrain._execute_step`) -/

/-- The language-model completion oracle (`AtlasBrain._call_qwen` with the
    fixed executor system prompt): user prompt to reply text. -/
abbrev QwenOracle := String → String

/-- An observable event of one run: a model call with its user prompt, or a
    dispatch of one action request. -/
inductive LoopEvent where
  | emodel (prompt : String)
  | edispatch (action : JsonVal)

/-- The `action` value a context line formats (`tool_call.get('action')`). -/
def actionOf : JsonVal → JsonVal
  | .obj fields => (dictGet fields "action").getD .null
  | _ => .null

/-- Dispatch every parsed action request of one step in order
    (`for tool_call in tool_calls:`), collecting results and dispatch
    events; an exception aborts the whole run. -/
def runStepTools (cap : ToolCap) : List JsonVal → List LoopEvent × Except PyError (List JsonVal)
  | [] => ([], .ok [])
  | tc :: rest =>
    match execute_tool cap tc with
    | .error e => ([.edispatch (actionOf tc)], .error e)
    | .ok r =>
      (.edispatch (actionOf tc) :: (runStepTools cap rest).fst,
       match (runStepTools cap rest).snd with
       | .error e => .error e
       | .ok rs => .ok (r :: rs))

/-- The result `_execute_step` returns when the reply holds no tool calls. -/
def no_tool_result (ai_response : String) : JsonVal :=
  .obj [("success", .bool true), ("message", .str "无需工具"),
        ("output", .str ai_response)]

/-- `AtlasBrain._execute_step`: build the executor prompt from the context,
    call the model once, parse; with no (or falsy) tool calls the reply is
    the result; with a truthy non-list the `for` raises `TypeError`; with a
    non-empty list every call is dispatched and the first result returned.
    (The knowledge-base reload after a successful `remember`/`forget` only
    refreshes prompt injection state and is outside this model.) -/
def execute_step (model : QwenOracle) (cap : ToolCap) (instruction context : String) :
    List LoopEvent × Except PyError JsonVal :=
  let user_prompt :=
    if context = "" then "当前任务: " ++ instruction
    else "上下文: " ++ context ++ "\n\n当前任务: " ++ instruction
  let ai_response := model user_prompt
  match parse_tool_call ai_response with
  | none => ([.emodel user_prompt], .ok (no_tool_result ai_response))
  | some v =>
    if pyTruthy v then
      match v with
      | .arr tcs =>
        (.emodel user_prompt :: (runStepTools cap tcs).fst,
         match (runStepTools cap tcs).snd with
         | .error e => .error e
         | .ok rs => .ok (rs.headD (.obj [])))
      | _ => ([.emodel user_prompt], .error .typeError)
    else ([.emodel user_prompt], .ok (no_tool_result ai_response))

/-- One executed plan step as recorded by the plan-mode loop: its position,
    instruction, the context it was given, its result, and the events its
    execution produced. -/
structure StepTrace where
  idx : Nat
  step : String
  ctxBefore : String
  result : JsonVal
  events : List LoopEvent

/-- The line plan mode appends to the context after step `i`
    (`context += f"第{i+1}步({step})已完成, 结果: {json.dumps(result, ensure_ascii=False)}\n"`). -/
def ctx_line (i : Nat) (step : String) (result : JsonVal) : String :=
  "第" ++ toString (i + 1) ++ "步(" ++ step ++ ")已完成, 结果: " ++ dumps result ++ "\n"

/-- The plan-mode `for i, step in enumerate(plan):` loop of `AtlasBrain.think`,
    threading the growing context and recording a `StepTrace` per step. -/
def planLoop (model : QwenOracle) (cap : ToolCap) :
    List String → Nat → String → Except PyError (List StepTrace × String)
  | [], _, context => .ok ([], context)
  | step :: rest, i, context =>
    match (execute_step model cap step context).snd with
    | .error e => .error e
    | .ok result =>
      match planLoop model cap rest (i + 1) (context ++ ctx_line i step result) with
      | .error e => .error e
      | .ok (trace, finalCtx) =>
        .ok (⟨i, step, context, result, (execute_step model cap step context).fst⟩ :: trace,
             finalCtx)

/-- The plan-mode branch of `AtlasBrain.think` (the summarisation call that
    follows the loop consumes the recorded step results and is a separate,
    single model call). -/
def think_plan (model : QwenOracle) (cap : ToolCap) (user_input : String)
    (plan : List String) : Except PyError (List StepTrace × String) :=
  planLoop model cap plan 0 ("原始任务: " ++ user_input ++ "\n")

/-- `max_turns = 5` of the single-shot (ReAct) branch of `AtlasBrain.think`. -/
def max_turns : Nat := 5

/-- The fixed answer produced when the single-shot loop exhausts its rounds. -/
def inconclusive_answer : String :=
  "我已经执行了多次操作, 但似乎仍未得出最终结论. 您可以尝试更明确地提出您的问题."

/-- Dispatch the tool calls of one single-shot round, appending one context
    line per call (`context += f"在第{i+1}回合, 调用了工具 '{...}', 结果是: {...}\n"`). -/
def runRoundTools (cap : ToolCap) (i : Nat) :
    List JsonVal → String → Except PyError String
  | [], context => .ok context
  | tc :: rest, context =>
    match execute_tool cap tc with
    | .error e => .error e
    | .ok r =>
      runRoundTools cap i rest
        (context ++ "在第" ++ toString (i + 1) ++ "回合, 调用了工具 \x27" ++
         pyFormat (actionOf tc) ++ "\x27, 结果是: " ++ dumps r ++ "\n")

/-- The `for i in range(max_turns):` body of single-shot mode.  `fuel` is the
    number of rounds left, `used` the number of completed model rounds (the
    loop index `i`).  Returns the rounds used and the `final_answer` the loop
    left behind (`""` when no `break` fired), or the exception that escaped. -/
def simple_loop (model : QwenOracle) (cap : ToolCap) (user_input : String) :
    Nat → Nat → String → Nat × Except PyError String
  | 0, used, _ => (used, .ok "")
  | fuel + 1, used, context =>
    let user_prompt :=
      "上下文:\n" ++ context ++ "\n\n当前任务: " ++ user_input ++
      "\n\n请根据上下文, 判断是应该继续调用工具, 还是已经可以回答原始任务了. 如果能回答, 请直接给出最终答案, 不要再输出JSON."
    let ai_response := model user_prompt
    match parse_tool_call ai_response with
    | none => (used + 1, .ok ai_response)
    | some v =>
      if pyTruthy v then
        match v with
        | .arr tcs =>
          (match runRoundTools cap used tcs context with
           | .error e => (used + 1, .error e)
           | .ok context2 => simple_loop model cap user_input fuel (used + 1) context2)
        | _ => (used + 1, .error .typeError)
      else (used + 1, .ok ai_response)

/-- The single-shot (`plan == "simple_task"`) branch of `AtlasBrain.think`:
    run the bounded loop from the initial context; an empty `final_answer`
    afterwards (no break, or a break on an empty reply) becomes the fixed
    inconclusive answer. -/
def think_simple (model : QwenOracle) (cap : ToolCap) (user_input : String) :
    Nat × Except PyError String :=
  match simple_loop model cap user_input max_turns 0 ("原始任务: " ++ user_input ++ "\n") with
  | (used, .error e) => (used, .error e)
  | (used, .ok ans) => (used, .ok (if ans = "" then inconclusive_answer else ans))

/-! ## Theorems -/

/-- Helper: `_parse_tool_call` is `Option.map` of the normalisation over the
    loaded payload. -/
theorem parse_tool_call_eq_map (s : String) :
    parse_tool_call s = (json_loads (extract_json_str s)).map normalize_calls := by
  unfold parse_tool_call
  cases json_loads (extract_json_str s) <;> rfl

/-- C5: for every input string on which the embedded `json.loads` step fails
    (malformed JSON, unbalanced braces, trailing prose, nested fences),
    `AtlasBrain._parse_tool_call` returns the distinguished "no actions"
    value `None` (`none`) — it is a total function and never raises, so the
    caller treats the raw text as a direct final answer. -/
theorem parse_tool_call_fail_open (response : String)
    (h : json_loads (extract_json_str response) = none) :
    parse_tool_call response = none := by
  rw [parse_tool_call_eq_map, h]; rfl

/-- Witness for C5 at a concrete malformed input (an unbalanced brace). -/
theorem parse_tool_call_fail_open_witness :
    json_loads (extract_json_str "\x7b\"action\": ") = none ∧
    parse_tool_call "\x7b\"action\": " = none :=
  ⟨rfl, parse_tool_call_fail_open _ rfl⟩

/-- C6 counterexample: a reply whose only fence is unlabeled.  The spec's
    parser (precedence (a)/(b)/(c)) extracts and parses it; the source
    parser has no generic-fence case and yields "no actions". -/
def c6_input : String := "```\n\x7b\"action\": \"ping\"\x7d\n```"

/-- C6 is false as stated: on `c6_input` the source parser and the
    spec-modelled parser disagree — the source returns `none` while the
    spec's precedence (b) would return the parsed one-element list. -/
theorem parser_fence_precedence_cex :
    parse_tool_call c6_input ≠ parse_tool_call_spec c6_input := by
  intro h
  have h1 : parse_tool_call c6_input = none := rfl
  have h2 : parse_tool_call_spec c6_input = some (.arr [.obj [("action", .str "ping")]]) := rfl
  rw [h1, h2] at h
  exact Option.noConfusion h

/-- C6 amended: the extraction precedence is (a) a fenced block explicitly
    labeled as JSON, otherwise (c) the raw text as-is (stripped); there is
    no generic-fence fallback.  A single JSON object is normalised into a
    one-element list. -/
theorem parser_fence_precedence (s : String) :
    (strContains s "```json" = true →
      parse_tool_call s =
        (json_loads (pyStrip ((pySplit ((pySplit s "```json").getD 1 "") "```").getD 0 ""))).map
          normalize_calls) ∧
    (strContains s "```json" = false →
      parse_tool_call s = (json_loads (pyStrip s)).map normalize_calls) ∧
    (∀ fs, json_loads (extract_json_str s) = some (.obj fs) →
      parse_tool_call s = some (.arr [.obj fs])) := by
  refine ⟨?_, ?_, ?_⟩
  · intro hs
    rw [parse_tool_call_eq_map]
    unfold extract_json_str
    rw [if_pos hs]
  · intro hs
    rw [parse_tool_call_eq_map]
    unfold extract_json_str
    rw [if_neg (by simp [hs])]
  · intro fs h
    unfold parse_tool_call
    rw [h]
    rfl

/-- Witness for the amended C6 at concrete inputs: an unfenced reply uses
    the raw text, and a single JSON object is wrapped into a list. -/
theorem parser_fence_precedence_witness :
    strContains "\x7b\x7d" "```json" = false ∧
    parse_tool_call "\x7b\x7d" = (json_loads (pyStrip "\x7b\x7d")).map normalize_calls ∧
    json_loads (extract_json_str "\x7b\x7d") = some (.obj []) ∧
    parse_tool_call "\x7b\x7d" = some (.arr [.obj []]) :=
  ⟨rfl, (parser_fence_precedence "\x7b\x7d").2.1 rfl, rfl,
   (parser_fence_precedence "\x7b\x7d").2.2 [] rfl⟩

/-- C1 counterexample: a snippet that writes `"hello\n"` to stdout and then
    raises.  `_run_code`'s `except` branch returns an empty stdout, so
    `execute` reports `success:false` with an EMPTY `output` field — the
    partial output is discarded, contrary to the claim. -/
theorem execute_partial_output_lost_cex :
    execute (.tree []) (.raises "hello\n" "" "Traceback: ZeroDivisionError") =
      ⟨false, "代码执行出错", "", "Traceback: ZeroDivisionError"⟩ ∧
    strContains (execute (.tree []) (.raises "hello\n" "" "Traceback: ZeroDivisionError")).output
      "hello\n" = false :=
  ⟨rfl, rfl⟩

/-- C1 amended: a snippet that writes output and then raises returns
    `success:false` with the traceback in `error`, but the `output` field is
    empty — whatever was written before the exception is discarded (output
    is preserved only on the no-exception path). -/
theorem execute_discards_output_on_raise (code : ParsedCode) (pOut pErr tb : String)
    (hsafe : (check_code_safety code).fst = true) (htb : tb ≠ "") :
    execute code (.raises pOut pErr tb) = ⟨false, "代码执行出错", "", tb⟩ := by
  unfold execute
  rw [hsafe]
  simp [run_code, htb]

/-- Witness for the amended C1. -/
theorem execute_discards_output_on_raise_witness :
    (check_code_safety (.tree [])).fst = true ∧
    execute (.tree []) (.raises "out" "" "tb") = ⟨false, "代码执行出错", "", "tb"⟩ :=
  ⟨rfl, execute_discards_output_on_raise _ "out" "" "tb" rfl (by decide)⟩

/-- C4 counterexample: a snippet importing `os` is rejected before any
    execution, but in the RETURNED RESULT the `error` field is not empty —
    it carries the rejection message (the capture buffers are never created,
    yet the claim speaks of the result's fields). -/
theorem sandbox_rejection_error_field_cex :
    execute (.tree [.importStmt ["os"]]) (.completes "SHOULD_NOT_RUN" "") =
      ⟨false, "代码安全检查失败: 禁止导入模块: os", "", "禁止导入模块: os"⟩ ∧
    (execute (.tree [.importStmt ["os"]]) (.completes "SHOULD_NOT_RUN" "")).error ≠ "" :=
  ⟨rfl, by decide⟩

/-- C4 amended: a snippet with a non-whitelisted import, a blacklisted bare
    identifier, or a syntax error is rejected by the static check, and
    `execute` returns `success:false` with an empty `output` field and the
    rejection message in `error`, without consulting the run outcome at all
    (the snippet is never executed). -/
theorem static_check_rejects_without_running :
    (∀ e, (check_code_safety (.syntaxError e)).fst = false) ∧
    (∀ nodes, (∃ n ∈ nodes, (violation n).isSome) →
      (check_code_safety (.tree nodes)).fst = false) ∧
    (∀ code outcome, (check_code_safety code).fst = false →
      execute code outcome =
        ⟨false, "代码安全检查失败: " ++ (check_code_safety code).snd, "",
         (check_code_safety code).snd⟩) := by
  refine ⟨fun e => rfl, ?_, ?_⟩
  · intro nodes h
    induction nodes with
    | nil => simp at h
    | cons n rest ih =>
      rcases h with ⟨m, hm, hviol⟩
      show (check_walk (n :: rest)).fst = false
      unfold check_walk
      cases hv : violation n with
      | some msg => rfl
      | none =>
        rcases List.mem_cons.mp hm with hm | hm
        · subst hm; rw [hv] at hviol; exact absurd hviol (by simp)
        · exact ih ⟨m, hm, hviol⟩
  · intro code outcome h
    unfold execute
    rw [h]
    simp

/-- Witness for the amended C4: a blacklisted identifier (`eval`) is
    rejected with the exact message, independent of the (never-consulted)
    run outcome. -/
theorem static_check_rejects_without_running_witness :
    (check_code_safety (.tree [.nameRef "eval"])).fst = false ∧
    (check_code_safety (.tree [.nameRef "eval"])).snd = "禁止使用: eval" ∧
    execute (.tree [.nameRef "eval"]) (.completes "x" "y") =
      ⟨false, "代码安全检查失败: " ++ (check_code_safety (.tree [.nameRef "eval"])).snd, "",
       (check_code_safety (.tree [.nameRef "eval"])).snd⟩ :=
  ⟨rfl, rfl,
   static_check_rejects_without_running.2.2 (.tree [.nameRef "eval"]) (.completes "x" "y") rfl⟩

/-- C7: an accepted snippet whose run exceeds the wall-clock bound yields the
    fixed TimedOut-shaped result (the `timeout_decorator.TimeoutError`
    branch of `execute`), which is distinct from every RuntimeError-shaped
    result a raising snippet can produce. -/
theorem execute_timeout_distinct (code : ParsedCode)
    (hsafe : (check_code_safety code).fst = true) :
    execute code .timesOut = ⟨false, "代码执行超时（超过10秒）", "", "执行超时"⟩ ∧
    ∀ pOut pErr tb, execute code (.raises pOut pErr tb) ≠ execute code .timesOut := by
  have h1 : execute code .timesOut = ⟨false, "代码执行超时（超过10秒）", "", "执行超时"⟩ := by
    unfold execute; rw [hsafe]; rfl
  refine ⟨h1, fun pOut pErr tb h => ?_⟩
  have h2 : execute code (.raises pOut pErr tb) =
      if tb = "" then ⟨true, "代码执行成功", "", ""⟩ else ⟨false, "代码执行出错", "", tb⟩ := by
    unfold execute; rw [hsafe]; rfl
  rw [h2, h1] at h
  by_cases htb : tb = ""
  · rw [if_pos htb] at h
    have hsuc : true = false := congrArg ExecResult.success h
    exact absurd hsuc (by decide)
  · rw [if_neg htb] at h
    have hmsg : "代码执行出错" = "代码执行超时（超过10秒）" := congrArg ExecResult.message h
    exact absurd hmsg (by decide)

/-- Witness for C7 at a concrete accepted snippet. -/
theorem execute_timeout_distinct_witness :
    (check_code_safety (.tree [.nameRef "print"])).fst = true ∧
    execute (.tree [.nameRef "print"]) .timesOut =
      ⟨false, "代码执行超时（超过10秒）", "", "执行超时"⟩ ∧
    execute (.tree [.nameRef "print"]) (.raises "" "" "tb") ≠
      execute (.tree [.nameRef "print"]) .timesOut :=
  ⟨rfl, (execute_timeout_distinct (.tree [.nameRef "print"]) rfl).1,
   (execute_timeout_distinct (.tree [.nameRef "print"]) rfl).2 "" "" "tb"⟩

/-- C3: dispatching any action whose name is not in the fixed `tool_map`
    returns `success:false` with a message naming the unknown action, and
    does not raise (the result is an `Except.ok`). -/
theorem dispatch_unknown_action_no_raise (cap : ToolCap) (fields : List (String × JsonVal))
    (name : String) (hget : dictGet fields "action" = some (.str name))
    (hname : name ∉ tool_names) :
    execute_tool cap (.obj fields) =
      .ok (.obj [("success", .bool false), ("message", .str ("未知工具: " ++ name))]) := by
  simp [execute_tool, hget, isToolName, hname, pyFormat]

/-- Witness for C3 at a concrete unmapped action name. -/
theorem dispatch_unknown_action_no_raise_witness :
    execute_tool (fun _ _ => .obj []) (.obj [("action", .str "fly_to_moon")]) =
      .ok (.obj [("success", .bool false), ("message", .str "未知工具: fly_to_moon")]) :=
  dispatch_unknown_action_no_raise _ _ "fly_to_moon" rfl (by decide)

/-- C10 (code bug evidence): with the workspace resolved to
    `/home/user/atlas_workspace`, the path `../atlas_workspaceX` resolves to
    the SIBLING directory `/home/user/atlas_workspaceX`, which is outside
    the workspace tree; yet the string-prefix check of `_get_safe_path`
    accepts it and `create_directory` reports success after performing a
    file-system operation outside the workspace. -/
theorem path_guard_prefix_bypass :
    create_directory ["home", "user", "atlas_workspace"] "../atlas_workspaceX" =
      ⟨true, "目录创建成功: ../atlas_workspaceX", some ["home", "user", "atlas_workspaceX"]⟩ ∧
    is_within ["home", "user", "atlas_workspaceX"] ["home", "user", "atlas_workspace"] = false :=
  ⟨rfl, rfl⟩

/-- Setting a key makes it readable with the new value. -/
theorem kb_get_set (kb : KnowledgeBase) (k v : String) :
    kb_get (kb_set kb k v) k = some v := by
  induction kb with
  | nil => simp [kb_set, kb_get]
  | cons p rest ih =>
    obtain ⟨k', v'⟩ := p
    by_cases h : k' = k
    · simp [kb_set, h, kb_get]
    · simp [kb_set, h, kb_get, ih]

/-- Setting never empties the dict. -/
theorem kb_set_ne_nil (kb : KnowledgeBase) (k v : String) :
    kb_set kb k v ≠ [] := by
  cases kb with
  | nil => simp [kb_set]
  | cons p rest =>
    obtain ⟨k', v'⟩ := p
    by_cases h : k' = k <;> simp [kb_set, h]

/-- A key absent from the dict reads as `none`. -/
theorem kb_get_eq_none (kb : KnowledgeBase) (key : String)
    (h : key ∉ kb.map Prod.fst) : kb_get kb key = none := by
  induction kb with
  | nil => rfl
  | cons p rest ih =>
    obtain ⟨k', v'⟩ := p
    have h1 : ¬k' = key := fun hh => h (by simp [hh])
    have h2 : key ∉ rest.map Prod.fst := fun hh => h (by simp [hh])
    simp [kb_get, h1, ih h2]

/-- Deleting a key (unique keys, as in a Python dict) makes it unreadable. -/
theorem kb_get_del_self (kb : KnowledgeBase) (key : String)
    (hnd : (kb.map Prod.fst).Nodup) : kb_get (kb_del kb key) key = none := by
  induction kb with
  | nil => rfl
  | cons p rest ih =>
    obtain ⟨k', v'⟩ := p
    simp [List.nodup_cons] at hnd
    by_cases h : k' = key
    · subst h
      simpa [kb_del] using kb_get_eq_none rest k' (by simpa using hnd.1)
    · simp [kb_del, h, kb_get, ih hnd.2]

/-- The JSON `facts` payload looks keys up exactly as the dict does. -/
theorem dictGet_kb_json (kb : KnowledgeBase) (key : String) :
    dictGet (kb.map (fun p => (p.1, JsonVal.str p.2))) key =
      (kb_get kb key).map JsonVal.str := by
  induction kb with
  | nil => rfl
  | cons p rest ih =>
    obtain ⟨k', v'⟩ := p
    by_cases h : k' = key <;> simp [dictGet, kb_get, h, ih]

/-- C8: a successful `remember(key, value)` immediately followed by
    `list_facts()` yields a `facts` mapping containing that key with that
    value, and a successful `forget(key)` immediately followed by
    `recall(key)` reports not-found with `success:false`.  The `Nodup`
    hypothesis states that the loaded dict has unique keys, which every
    Python dict has. -/
theorem knowledge_read_after_write :
    (∀ kb key value, key ≠ "" → value ≠ "" →
      j_success ((remember key value kb).fst) = some (.bool true) ∧
      ∃ fs, j_field (list_facts ((remember key value kb).snd)) "facts" = some (.obj fs) ∧
        dictGet fs key = some (.str value)) ∧
    (∀ kb key, (kb.map Prod.fst).Nodup →
      j_success ((forget key kb).fst) = some (.bool true) →
      recall_fact key ((forget key kb).snd) =
        .obj [("success", .bool false), ("value", .null),
              ("message", .str ("我的知识库里没有关于 \x27" ++ key ++ "\x27 的记忆."))]) := by
  constructor
  · intro kb key value hk hv
    constructor
    · simp [remember, hk, hv, j_success, dictGet]
    · have hsnd : (remember key value kb).snd = kb_set kb key value := by
        simp [remember, hk, hv]
      refine ⟨((remember key value kb).snd).map (fun p => (p.1, JsonVal.str p.2)), ?_, ?_⟩
      · have hne : ((remember key value kb).snd).isEmpty = false := by
          rw [hsnd]
          cases h : kb_set kb key value with
          | nil => exact absurd h (kb_set_ne_nil kb key value)
          | cons x xs => rfl
        simp [list_facts, hne, j_field, kb_json, dictGet]
      · rw [hsnd, dictGet_kb_json, kb_get_set]
        rfl
  · intro kb key hnd hsucc
    have hk : key ≠ "" := by
      intro h
      rw [h] at hsucc
      simp [forget, j_success, dictGet] at hsucc
    have hmem : (kb_get kb key).isSome := by
      by_cases hm : (kb_get kb key).isSome
      · exact hm
      · exfalso
        simp [forget, hk, hm, j_success, dictGet] at hsucc
    have hsnd : (forget key kb).snd = kb_del kb key := by
      simp [forget, hk, hmem]
    rw [hsnd]
    simp [recall_fact, hk, kb_get_del_self kb key hnd]

/-- Witness for C8 at concrete facts. -/
theorem knowledge_read_after_write_witness :
    (j_success ((remember "user_name" "Ethan" []).fst) = some (.bool true) ∧
     ∃ fs, j_field (list_facts ((remember "user_name" "Ethan" []).snd)) "facts" =
        some (.obj fs) ∧ dictGet fs "user_name" = some (.str "Ethan")) ∧
    recall_fact "user_name" ((forget "user_name" [("user_name", "Ethan")]).snd) =
      .obj [("success", .bool false), ("value", .null),
            ("message", .str ("我的知识库里没有关于 \x27user_name\x27 的记忆."))] := by
  constructor
  · exact knowledge_read_after_write.1 [] "user_name" "Ethan" (by decide) (by decide)
  · have := knowledge_read_after_write.2 [("user_name", "Ethan")] "user_name"
      (by decide) rfl
    simpa using this

/-- A well-formed action request: a dict whose `parameters` entry, when
    present, is itself a dict (so `**params` binds without raising; the
    capability itself returns a result per the uniform contract). -/
def wellFormedCall : JsonVal → Bool
  | .obj fields =>
    (match dictGet fields "parameters" with
     | none => true
     | some (.obj _) => true
     | some _ => false)
  | _ => false

/-- A model reply that parses to at least one well-formed tool call. -/
def goodResponse (s : String) : Prop :=
  ∃ tcs, parse_tool_call s = some (.arr tcs) ∧ tcs ≠ [] ∧
    ∀ tc ∈ tcs, wellFormedCall tc = true

/-- Dispatching a well-formed call never raises. -/
theorem execute_tool_total (cap : ToolCap) (tc : JsonVal)
    (h : wellFormedCall tc = true) : ∃ r, execute_tool cap tc = .ok r := by
  cases tc with
  | obj fields =>
    cases hp : dictGet fields "parameters" with
    | none =>
      by_cases ht : isToolName ((dictGet fields "action").getD .null)
      · exact ⟨cap (strOf ((dictGet fields "action").getD .null)) [],
          by simp [execute_tool, hp, ht]⟩
      · exact ⟨.obj [("success", .bool false),
          ("message", .str ("未知工具: " ++ pyFormat ((dictGet fields "action").getD .null)))],
          by simp [execute_tool, hp, ht]⟩
    | some pv =>
      cases pv with
      | obj p =>
        by_cases ht : isToolName ((dictGet fields "action").getD .null)
        · exact ⟨cap (strOf ((dictGet fields "action").getD .null)) p,
            by simp [execute_tool, hp, ht]⟩
        · exact ⟨.obj [("success", .bool false),
            ("message", .str ("未知工具: " ++ pyFormat ((dictGet fields "action").getD .null)))],
            by simp [execute_tool, hp, ht]⟩
      | null => simp [wellFormedCall, hp] at h
      | bool b => simp [wellFormedCall, hp] at h
      | num n => simp [wellFormedCall, hp] at h
      | str s => simp [wellFormedCall, hp] at h
      | arr xs => simp [wellFormedCall, hp] at h
  | null => simp [wellFormedCall] at h
  | bool b => simp [wellFormedCall] at h
  | num n => simp [wellFormedCall] at h
  | str s => simp [wellFormedCall] at h
  | arr xs => simp [wellFormedCall] at h

/-- A round of well-formed calls runs to completion. -/
theorem runRoundTools_total (cap : ToolCap) (i : Nat) :
    ∀ tcs, (∀ tc ∈ tcs, wellFormedCall tc = true) →
      ∀ context, ∃ context2, runRoundTools cap i tcs context = .ok context2 := by
  intro tcs
  induction tcs with
  | nil => exact fun _ context => ⟨context, rfl⟩
  | cons tc rest ih =>
    intro h context
    obtain ⟨r, hr⟩ := execute_tool_total cap tc (h tc (by simp))
    obtain ⟨c2, hc2⟩ := ih (fun t ht => h t (by simp [ht])) (context ++ "在第" ++
      toString (i + 1) ++ "回合, 调用了工具 \x27" ++ pyFormat (actionOf tc) ++
      "\x27, 结果是: " ++ dumps r ++ "\n")
    refine ⟨c2, ?_⟩
    unfold runRoundTools
    rw [hr]
    exact hc2

/-- Under an always-tool-calling model the loop consumes all its fuel and
    leaves an empty `final_answer`. -/
theorem simple_loop_exhausts (model : QwenOracle) (cap : ToolCap) (user_input : String)
    (hgood : ∀ p, goodResponse (model p)) :
    ∀ fuel used context,
      simple_loop model cap user_input fuel used context = (used + fuel, .ok "") := by
  intro fuel
  induction fuel with
  | zero => intro used context; simp [simple_loop]
  | succ f ih =>
    intro used context
    obtain ⟨tcs, hparse, hne, hwf⟩ := hgood ("上下文:\n" ++ context ++ "\n\n当前任务: " ++
      user_input ++
      "\n\n请根据上下文, 判断是应该继续调用工具, 还是已经可以回答原始任务了. 如果能回答, 请直接给出最终答案, 不要再输出JSON.")
    have htr : pyTruthy (.arr tcs) = true := by
      cases tcs with
      | nil => exact absurd rfl hne
      | cons _ _ => rfl
    obtain ⟨c2, hc2⟩ := runRoundTools_total cap used tcs hwf context
    simp only [simple_loop]
    rw [hparse]
    dsimp only
    rw [if_pos htr, hc2]
    dsimp only
    rw [ih (used + 1) c2]
    have : used + 1 + f = used + (f + 1) := by omega
    rw [this]

/-- The loop never uses more rounds than its fuel. -/
theorem simple_loop_rounds_le (model : QwenOracle) (cap : ToolCap) (user_input : String) :
    ∀ fuel used context,
      (simple_loop model cap user_input fuel used context).fst ≤ used + fuel := by
  intro fuel
  induction fuel with
  | zero => intro used context; simp [simple_loop]
  | succ f ih =>
    intro used context
    simp only [simple_loop]
    split
    · simp
    · split
      · split
        · split
          · simp
          · exact le_trans (ih (used + 1) _) (by omega)
        · simp
      · simp

/-- C2: the single-shot branch of `AtlasBrain.think` runs at most
    `max_turns = 5` model rounds for every model and capability oracle; and
    when the model's reply in every round parses to at least one
    (well-formed) tool call, the loop terminates after exactly `max_turns`
    rounds with the fixed inconclusive answer, raising no exception. -/
theorem think_single_shot_bounded (model : QwenOracle) (cap : ToolCap) (user_input : String) :
    (think_simple model cap user_input).fst ≤ max_turns ∧
    ((∀ p, goodResponse (model p)) →
      think_simple model cap user_input = (max_turns, .ok inconclusive_answer)) := by
  constructor
  · unfold think_simple
    have h := simple_loop_rounds_le model cap user_input max_turns 0
      ("原始任务: " ++ user_input ++ "\n")
    cases hres : simple_loop model cap user_input max_turns 0 ("原始任务: " ++ user_input ++ "\n") with
    | mk used r =>
      rw [hres] at h
      cases r <;> simpa using h
  · intro hg
    unfold think_simple
    rw [simple_loop_exhausts model cap user_input hg max_turns 0 ("原始任务: " ++ user_input ++ "\n")]
    rfl

/-- Witness for C2: a model that always replies with the same one-element
    tool-call list drives the loop to all five rounds and the inconclusive
    answer. -/
theorem think_single_shot_bounded_witness :
    (∀ p, goodResponse ((fun _ => "[\x7b\"action\": \"noop\"\x7d]" : QwenOracle) p)) ∧
    think_simple (fun _ => "[\x7b\"action\": \"noop\"\x7d]") (fun _ _ => .obj []) "你好" =
      (max_turns, .ok inconclusive_answer) := by
  have hg : ∀ p, goodResponse ((fun _ => "[\x7b\"action\": \"noop\"\x7d]" : QwenOracle) p) := by
    intro p
    refine ⟨[.obj [("action", .str "noop")]], rfl, by simp, ?_⟩
    intro tc htc
    simp at htc
    rw [htc]
    rfl
  exact ⟨hg, (think_single_shot_bounded _ _ "你好").2 hg⟩

/-- The relation between consecutive plan steps: indices increase by one and
    the later step's context is the earlier step's context extended by the
    earlier step's context line — in particular it contains the serialized
    result of the earlier step as a substring, and the context only grows. -/
def stepRel (a b : StepTrace) : Prop :=
  b.idx = a.idx + 1 ∧
  b.ctxBefore = a.ctxBefore ++ ctx_line a.idx a.step a.result ∧
  ∃ pre post, b.ctxBefore = pre ++ dumps a.result ++ post

/-- A context line wraps the serialized result. -/
theorem ctx_line_decomp (i : Nat) (step : String) (r : JsonVal) :
    ∃ pre, ctx_line i step r = pre ++ dumps r ++ "\n" :=
  ⟨"第" ++ toString (i + 1) ++ "步(" ++ step ++ ")已完成, 结果: ", rfl⟩

/-- Every event a round of dispatches emits is a dispatch event. -/
theorem runStepTools_events_dispatch (cap : ToolCap) :
    ∀ tcs, ∀ d ∈ (runStepTools cap tcs).fst, ∃ a, d = .edispatch a := by
  intro tcs
  induction tcs with
  | nil => intro d hd; simp [runStepTools] at hd
  | cons tc rest ih =>
    intro d hd
    unfold runStepTools at hd
    cases he : execute_tool cap tc with
    | error e =>
      rw [he] at hd
      simp at hd
      exact ⟨_, hd⟩
    | ok r =>
      rw [he] at hd
      simp at hd
      rcases hd with hd | hd
      · exact ⟨_, hd⟩
      · exact ih d hd

/-- One step's event list is exactly one model call followed by dispatch
    events only (no inner reason-act loop). -/
theorem execute_step_events (model : QwenOracle) (cap : ToolCap) (instruction context : String) :
    ∃ p ds, (execute_step model cap instruction context).fst = .emodel p :: ds ∧
      ∀ d ∈ ds, ∃ a, d = .edispatch a := by
  simp only [execute_step]
  cases parse_tool_call (model _) with
  | none => exact ⟨_, [], rfl, by simp⟩
  | some v =>
    dsimp only
    by_cases ht : pyTruthy v
    · rw [if_pos ht]
      cases v with
      | arr tcs => exact ⟨_, _, rfl, runStepTools_events_dispatch cap tcs⟩
      | null => exact ⟨_, [], rfl, by simp⟩
      | bool b => exact ⟨_, [], rfl, by simp⟩
      | num n => exact ⟨_, [], rfl, by simp⟩
      | str s => exact ⟨_, [], rfl, by simp⟩
      | obj fs => exact ⟨_, [], rfl, by simp⟩
    · rw [if_neg ht]
      exact ⟨_, [], rfl, by simp⟩

/-- Structure of a successful plan-mode run, by induction over the plan:
    recorded steps are the plan in order; each recorded result is what
    `execute_step` yields on the recorded context; events per step are a
    single model call plus dispatches; the head starts at the given index
    and context; consecutive steps satisfy `stepRel`. -/
theorem planLoop_ok_spec (model : QwenOracle) (cap : ToolCap) :
    ∀ plan i context trace finalCtx,
      planLoop model cap plan i context = .ok (trace, finalCtx) →
      trace.map StepTrace.step = plan ∧
      (∀ e ∈ trace, (execute_step model cap e.step e.ctxBefore).snd = .ok e.result ∧
        ∃ p ds, e.events = .emodel p :: ds ∧ ∀ d ∈ ds, ∃ a, d = .edispatch a) ∧
      (∀ e, trace.head? = some e → e.ctxBefore = context ∧ e.idx = i) ∧
      List.Chain' stepRel trace := by
  intro plan
  induction plan with
  | nil =>
    intro i context trace finalCtx h
    simp [planLoop] at h
    obtain ⟨h1, h2⟩ := h
    subst h1
    exact ⟨rfl, by simp, by simp, by simp⟩
  | cons step rest ih =>
    intro i context trace finalCtx h
    unfold planLoop at h
    cases hes : (execute_step model cap step context).snd with
    | error e => rw [hes] at h; exact absurd h (by simp)
    | ok result =>
      rw [hes] at h
      dsimp only at h
      cases hrec : planLoop model cap rest (i + 1) (context ++ ctx_line i step result) with
      | error e => rw [hrec] at h; exact absurd h (by simp)
      | ok pr =>
        obtain ⟨trace', finalCtx'⟩ := pr
        rw [hrec] at h
        dsimp only at h
        simp only [Except.ok.injEq, Prod.mk.injEq] at h
        obtain ⟨htr, hfc⟩ := h
        obtain ⟨hmap, hall, hhead, hchain⟩ :=
          ih (i + 1) (context ++ ctx_line i step result) trace' finalCtx' hrec
        subst htr
        refine ⟨by simp [hmap], ?_, by simp, ?_⟩
        · intro e he
          rcases List.mem_cons.mp he with he | he
          · subst he
            exact ⟨hes, execute_step_events model cap step context⟩
          · exact hall e he
        · cases trace' with
          | nil => simp
          | cons e1 tr2 =>
            refine List.chain'_cons.mpr ⟨?_, hchain⟩
            obtain ⟨hctx1, hidx1⟩ := hhead e1 rfl
            obtain ⟨pre, hpre⟩ := ctx_line_decomp i step result
            refine ⟨by simp [hidx1], by simp [hctx1], context ++ pre, "\n", ?_⟩
            rw [hctx1, hpre, String.append_assoc, String.append_assoc, String.append_assoc]

/-- C9: in plan mode, a successful `AtlasBrain.think` run executes the plan's
    steps strictly in list order (the recorded steps ARE the plan, with
    consecutive indices), every step is one model call followed only by
    dispatches of that step's parsed actions, each recorded result is what
    the executor produced from that step's own context, and the context
    passed into step `i+1` is the context of step `i` extended with the
    context line embedding the serialized result of step `i` — the context
    only grows and the serialization appears verbatim as a substring. -/
theorem think_plan_ordered_steps (model : QwenOracle) (cap : ToolCap) (user_input : String)
    (plan : List String) (trace : List StepTrace) (finalCtx : String)
    (h : think_plan model cap user_input plan = .ok (trace, finalCtx)) :
    trace.map StepTrace.step = plan ∧
    (∀ e ∈ trace, (execute_step model cap e.step e.ctxBefore).snd = .ok e.result ∧
      ∃ p ds, e.events = .emodel p :: ds ∧ ∀ d ∈ ds, ∃ a, d = .edispatch a) ∧
    List.Chain' stepRel trace := by
  obtain ⟨h1, h2, _, h4⟩ :=
    planLoop_ok_spec model cap plan 0 ("原始任务: " ++ user_input ++ "\n") trace finalCtx h
  exact ⟨h1, h2, h4⟩

/-- Witness for C9: a one-step plan under a model that answers in plain
    text; the recorded trace is computed concretely and the theorem's
    conclusions are instantiated on it. -/
theorem think_plan_ordered_steps_witness :
    think_plan (fun _ => "done") (fun _ _ => .obj []) "t" ["s1"] =
      .ok ([⟨0, "s1", "原始任务: t\n", no_tool_result "done",
            [.emodel "上下文: 原始任务: t\n\n\n当前任务: s1"]⟩],
           "原始任务: t\n" ++ ctx_line 0 "s1" (no_tool_result "done")) ∧
    ([⟨0, "s1", "原始任务: t\n", no_tool_result "done",
       [.emodel "上下文: 原始任务: t\n\n\n当前任务: s1"]⟩] : List StepTrace).map
        StepTrace.step = ["s1"] := by
  refine ⟨rfl, ?_⟩
  exact (think_plan_ordered_steps (fun _ => "done") (fun _ _ => .obj []) "t" ["s1"]
    [⟨0, "s1", "原始任务: t\n", no_tool_result "done",
      [.emodel "上下文: 原始任务: t\n\n\n当前任务: s1"]⟩]
    ("原始任务: t\n" ++ ctx_line 0 "s1" (no_tool_result "done")) rfl).1
